import Mathlib

/-!
# One million checkboxes: the bit-packed checkbox set of main.go

A shallow embedding of `src/main.go`.

* Go `int` values (indices, the counter of `CountChecked`) are Lean `Int`s; the only place
  where an `int` could overflow is the accumulator of `CountChecked`, which wraps explicitly.
* Go `uint64` words are Lean `Nat`s; the shift `1 << bitIndex` is reduced modulo `2 ^ 64`.
* The receiver `*CheckboxSet` is mutated in place, so every method is a function from the
  state before the call to an `Outcome`: the value returned (or the run-time panic raised)
  together with the state after the call.
-/

namespace OneMillionCheckboxes

/-! ## Data model -/

/-- The constant `NumCheckboxes` of main.go. -/
def NumCheckboxes : Nat := 1000000

/-- The two run-time panics the bit operations of main.go can raise: a slice index out of
range, and a shift by a negative count. -/
inductive Panic where
  | indexOutOfRange
  | negativeShift
  deriving DecidableEq

deriving instance DecidableEq for Except

/-- The struct `CheckboxSet`: its only field is the slice `bits` of `uint64` words. -/
structure CheckboxSet where
  bits : List Nat
  deriving DecidableEq

/-- What a call leaves behind: the value it returned or the panic it raised, and the
checkbox set after the call. -/
structure Outcome (α : Type) where
  result : Except Panic α
  state : CheckboxSet

/-- Every word of the set fits the Go type `uint64`. -/
def WellTyped (cs : CheckboxSet) : Prop := ∀ w ∈ cs.bits, w < 2 ^ 64

/-! ## Machine arithmetic -/

/-- The shift `x << n` on `uint64` for a count `n ≥ 0`: bits moved past bit 63 are lost. -/
def shl64 (x n : Nat) : Nat := (x <<< n) % 2 ^ 64

/-- Two-complement wrap-around of a mathematical integer into the 64-bit Go type `int`. -/
def wrapInt (x : Int) : Int := (x + 2 ^ 63) % 2 ^ 64 - 2 ^ 63

/-- Number of one bits among the lowest `k` bits of `w`. -/
def onesCount : Nat → Nat → Nat
  | 0, _ => 0
  | k + 1, w => w % 2 + onesCount k (w / 2)

/-- The library function `bits.OnesCount64`: the population count of a `uint64`, as an `int`. -/
def OnesCount64 (x : Nat) : Int := (onesCount 64 x : Nat)

/-! ## The checkbox set -/

/-- The constructor `NewCheckboxSet`: `make([]uint64, (NumCheckboxes+63)/64)`, all words zero. -/
def NewCheckboxSet : CheckboxSet :=
  { bits := List.replicate ((NumCheckboxes + 63) / 64) 0 }

/-- The method `CheckboxSet.Toggle`.  Go division and remainder on `int` truncate toward zero.
The statement `cs.bits[wordIndex] ^= 1 << bitIndex` panics when `wordIndex` is outside the
slice or when `bitIndex` is negative; in both cases nothing has been stored yet. -/
def Toggle (cs : CheckboxSet) (index : Int) : Outcome Unit :=
  let wordIndex := Int.tdiv index 64
  let bitIndex := Int.tmod index 64
  if wordIndex < 0 ∨ (cs.bits.length : Int) ≤ wordIndex then
    ⟨.error .indexOutOfRange, cs⟩
  else if bitIndex < 0 then
    ⟨.error .negativeShift, cs⟩
  else
    let word := cs.bits.getD wordIndex.toNat 0 ^^^ shl64 1 bitIndex.toNat
    ⟨.ok (), ⟨cs.bits.set wordIndex.toNat word⟩⟩

/-- The method `CheckboxSet.IsChecked`: reads `(cs.bits[wordIndex] & (1 << bitIndex)) != 0`, with the
same two panics as `Toggle`; the set is not written. -/
def IsChecked (cs : CheckboxSet) (index : Int) : Outcome Bool :=
  let wordIndex := Int.tdiv index 64
  let bitIndex := Int.tmod index 64
  if wordIndex < 0 ∨ (cs.bits.length : Int) ≤ wordIndex then
    ⟨.error .indexOutOfRange, cs⟩
  else if bitIndex < 0 then
    ⟨.error .negativeShift, cs⟩
  else
    ⟨.ok ((cs.bits.getD wordIndex.toNat 0 &&& shl64 1 bitIndex.toNat) != 0), cs⟩

/-- The method `CheckboxSet.CountChecked`: the range loop adds the population count of every word to
an `int` accumulator that starts at zero. -/
def CountChecked (cs : CheckboxSet) : Outcome Int :=
  ⟨.ok (cs.bits.foldl (fun count word => wrapInt (count + OnesCount64 word)) 0), cs⟩

/-- States reachable from `NewCheckboxSet()` by calls `Toggle(i)` with `0 ≤ i < NumCheckboxes`. -/
inductive Reachable : CheckboxSet → Prop where
  | init : Reachable NewCheckboxSet
  | step (cs : CheckboxSet) (i : Int) : Reachable cs → 0 ≤ i → i < NumCheckboxes →
      Reachable (Toggle cs i).state

/-- The state has the storage length that `NewCheckboxSet` allocates. -/
def ConstructedLength (cs : CheckboxSet) : Prop :=
  cs.bits.length = (NumCheckboxes + 63) / 64

/-- The word of the slice `ws` that holds checkbox `n`, read at the bit of checkbox `n`
(words past the end of the slice read as zero). -/
def bitAt (ws : List Nat) (n : Nat) : Bool := (ws.getD (n / 64) 0).testBit (n % 64)

/-! ## Sequences of calls -/

/-- The call `Toggle(i)` made `n` times in a row; a panic ends the sequence. -/
def toggleN (i : Int) : Nat → CheckboxSet → Outcome Unit
  | 0, cs => ⟨.ok (), cs⟩
  | n + 1, cs =>
    let r := Toggle cs i
    match r.result with
    | .error p => ⟨.error p, r.state⟩
    | .ok _ => toggleN i n r.state

/-- The calls `Toggle(i)` for the indices `i` of a list, in the order of the list; a panic
ends the sequence. -/
def toggleAll : List Int → CheckboxSet → Outcome Unit
  | [], cs => ⟨.ok (), cs⟩
  | i :: rest, cs =>
    let r := Toggle cs i
    match r.result with
    | .error p => ⟨.error p, r.state⟩
    | .ok _ => toggleAll rest r.state

/-! ## HTTP handlers -/

/-- What a handler needs of the request: the key and value pairs of the URL query, in order. -/
structure Request where
  query : List (String × String)

/-- The call `r.URL.Query().Get(key)`: the first value stored under `key`, and the empty
string when there is none. -/
def Request.queryGet (r : Request) (key : String) : String :=
  match r.query.find? (fun kv => kv.1 == key) with
  | some kv => kv.2
  | none => ""

/-- The payload written to the response writer. -/
inductive Body where
  | text (s : String)
  | json (state : List Bool)
  deriving DecidableEq

/-- The response a handler produces: status code, the Content-Type header when the handler
sets one, and the payload. -/
structure Response where
  status : Nat
  contentType : Option String
  body : Body
  deriving DecidableEq

/-- The library call `http.Error(w, msg, code)`. -/
def httpError (msg : String) (code : Nat) : Response :=
  ⟨code, some "text/plain; charset=utf-8", .text (msg ++ "\n")⟩

/-- The constant `http.StatusBadRequest`. -/
def StatusBadRequest : Nat := 400

/-- The constant `http.StatusOK`, the status of a response that is written without an
explicit status. -/
def StatusOK : Nat := 200

/-- Value of a decimal digit, if the character is one. -/
def digitValue (c : Char) : Option Nat :=
  if '0' ≤ c ∧ c ≤ '9' then some (c.toNat - '0'.toNat) else none

/-- Reads a run of decimal digits, most significant first, onto the accumulator. -/
def parseDigits : List Char → Nat → Option Nat
  | [], acc => some acc
  | c :: rest, acc =>
    match digitValue c with
    | none => none
    | some d => parseDigits rest (acc * 10 + d)

/-- The library function `strconv.Atoi` (base 10, an optional sign, at least one digit, no
other characters, value within the 64-bit `int`); `none` stands for a non-nil `err`. -/
def Atoi (s : String) : Option Int :=
  let signed : Bool × List Char :=
    match s.toList with
    | '-' :: rest => (true, rest)
    | '+' :: rest => (false, rest)
    | l => (false, l)
  if signed.2 = [] then none
  else
    match parseDigits signed.2 0 with
    | none => none
    | some n =>
      let v : Int := if signed.1 then -(n : Int) else (n : Int)
      if v < -(2 ^ 63) ∨ 2 ^ 63 ≤ v then none else some v

/-- The handler `toggleHandler`, on the global `checkboxes`. -/
def toggleHandler (checkboxes : CheckboxSet) (r : Request) : Outcome Response :=
  let indexStr := r.queryGet "index"
  match Atoi indexStr with
  | none => ⟨.ok (httpError "Invalid index" StatusBadRequest), checkboxes⟩
  | some index =>
    if index < 0 ∨ index ≥ NumCheckboxes then
      ⟨.ok (httpError "Invalid index" StatusBadRequest), checkboxes⟩
    else
      let t := Toggle checkboxes index
      match t.result with
      | .error p => ⟨.error p, t.state⟩
      | .ok _ => ⟨.ok ⟨StatusOK, none, .text ("Toggled checkbox " ++ toString index)⟩, t.state⟩

/-- The handler `countHandler`, on the global `checkboxes`. -/
def countHandler (checkboxes : CheckboxSet) : Outcome Response :=
  let c := CountChecked checkboxes
  match c.result with
  | .error p => ⟨.error p, c.state⟩
  | .ok count => ⟨.ok ⟨StatusOK, none, .text (toString count)⟩, c.state⟩

/-- The loop of `stateHandler` from counter value `i` on: `state[i] = checkboxes.IsChecked(i)`
while `i < NumCheckboxes`. -/
def stateLoop (checkboxes : CheckboxSet) (i : Nat) (state : List Bool) : Outcome (List Bool) :=
  if i < NumCheckboxes then
    let r := IsChecked checkboxes (i : Int)
    match r.result with
    | .error p => ⟨.error p, r.state⟩
    | .ok b => stateLoop r.state (i + 1) (state.set i b)
  else ⟨.ok state, checkboxes⟩
termination_by NumCheckboxes - i

/-- The handler `stateHandler`, on the global `checkboxes`: the slice `state` is
`make([]bool, NumCheckboxes)` filled by the loop, and is sent as a JSON array. -/
def stateHandler (checkboxes : CheckboxSet) : Outcome Response :=
  let s := stateLoop checkboxes 0 (List.replicate NumCheckboxes false)
  match s.result with
  | .error p => ⟨.error p, s.state⟩
  | .ok state => ⟨.ok ⟨StatusOK, some "application/json", .json state⟩, s.state⟩

/-! ## Evaluation on small inputs -/

example : (Toggle ⟨[0, 0]⟩ 65).state = ⟨[0, 2]⟩ := by decide
example : (Toggle ⟨[0, 0]⟩ (-1)).result = .error .negativeShift := by decide
example : (Toggle ⟨[0, 0]⟩ (-64)).result = .error .indexOutOfRange := by decide
example : (Toggle ⟨[0, 0]⟩ 128).result = .error .indexOutOfRange := by decide
example : (CountChecked ⟨[5, 3]⟩).result = .ok 4 := by decide
example : Atoi "-1" = some (-1) := by decide
example : Atoi "1000000" = some 1000000 := by decide
example : Atoi "" = none := by decide
example : Atoi "+" = none := by decide
example : Atoi "12a" = none := by decide
example : Atoi "+7" = some 7 := by decide
example : Atoi "9223372036854775808" = none := by decide
example : Atoi "-9223372036854775808" = some (-9223372036854775808) := by decide
example : (toggleAll [0, 2, 5] ⟨[0, 0]⟩).state = ⟨[37, 0]⟩ := by decide
example : (Request.queryGet ⟨[("a", "1"), ("index", "5")]⟩ "index") = "5" := by decide

/-! ## Bit-level facts -/

theorem shl64_one {b : Nat} (hb : b < 64) : shl64 1 b = 2 ^ b := by
  unfold shl64
  rw [Nat.one_shiftLeft]
  exact Nat.mod_eq_of_lt (Nat.pow_lt_pow_right (by norm_num) hb)

theorem and_two_pow_bne_zero (w b : Nat) : ((w &&& 2 ^ b) != 0) = w.testBit b := by
  cases h : w.testBit b with
  | true =>
    have h1 : (w &&& 2 ^ b).testBit b = true := by
      rw [Nat.testBit_and, h, Nat.testBit_two_pow_self]; rfl
    have h2 : w &&& 2 ^ b ≠ 0 := by
      intro h0
      rw [h0, Nat.zero_testBit] at h1
      exact Bool.noConfusion h1
    simpa using h2
  | false =>
    have h0 : w &&& 2 ^ b = 0 := by
      apply Nat.eq_of_testBit_eq
      intro i
      rw [Nat.testBit_and, Nat.zero_testBit, Nat.testBit_two_pow]
      by_cases hi : b = i
      · subst hi; simp [h]
      · simp [hi]
    simp [h0]

theorem tdiv_ofNat (n : Nat) : Int.tdiv (n : Int) 64 = ((n / 64 : Nat) : Int) :=
  (Int.ofNat_tdiv n 64).symm

theorem tmod_ofNat (n : Nat) : Int.tmod (n : Int) 64 = ((n % 64 : Nat) : Int) :=
  (Int.ofNat_tmod n 64).symm

theorem Toggle_ofNat (cs : CheckboxSet) (n : Nat) (h : n / 64 < cs.bits.length) :
    Toggle cs (n : Int) =
      ⟨.ok (), ⟨cs.bits.set (n / 64) (cs.bits.getD (n / 64) 0 ^^^ 2 ^ (n % 64))⟩⟩ := by
  have hb : n % 64 < 64 := Nat.mod_lt _ (by norm_num)
  unfold Toggle
  simp only [tdiv_ofNat, tmod_ofNat, Int.toNat_ofNat, shl64_one hb]
  have h1 : ¬ (((n / 64 : Nat) : Int) < 0 ∨ (cs.bits.length : Int) ≤ ((n / 64 : Nat) : Int)) := by
    omega
  have h2 : ¬ (((n % 64 : Nat) : Int) < 0) := by omega
  rw [if_neg h1, if_neg h2]

theorem IsChecked_ofNat (cs : CheckboxSet) (n : Nat) (h : n / 64 < cs.bits.length) :
    IsChecked cs (n : Int) = ⟨.ok (bitAt cs.bits n), cs⟩ := by
  have hb : n % 64 < 64 := Nat.mod_lt _ (by norm_num)
  unfold IsChecked bitAt
  simp only [tdiv_ofNat, tmod_ofNat, Int.toNat_ofNat, shl64_one hb, and_two_pow_bne_zero]
  have h1 : ¬ (((n / 64 : Nat) : Int) < 0 ∨ (cs.bits.length : Int) ≤ ((n / 64 : Nat) : Int)) := by
    omega
  have h2 : ¬ (((n % 64 : Nat) : Int) < 0) := by omega
  rw [if_neg h1, if_neg h2]

theorem bitAt_set (ws : List Nat) (n m : Nat) (h : n / 64 < ws.length) :
    bitAt (ws.set (n / 64) (ws.getD (n / 64) 0 ^^^ 2 ^ (n % 64))) m
      = (bitAt ws m != decide (m = n)) := by
  unfold bitAt
  by_cases hq : m / 64 = n / 64
  · rw [hq, List.getD_eq_getElem?_getD, List.getElem?_set_self h]
    simp only [Option.getD_some, Nat.testBit_xor, Nat.testBit_two_pow]
    have : (n % 64 = m % 64) ↔ (m = n) := by omega
    simp [this]
  · have hmn : m ≠ n := fun e => hq (by rw [e])
    rw [List.getD_eq_getElem?_getD, List.getElem?_set_ne (Ne.symm hq)]
    simp [hmn, List.getD_eq_getElem?_getD]

theorem bitAt_Toggle (cs : CheckboxSet) (n m : Nat) (h : n / 64 < cs.bits.length) :
    bitAt (Toggle cs (n : Int)).state.bits m = (bitAt cs.bits m != decide (m = n)) := by
  rw [Toggle_ofNat cs n h]
  exact bitAt_set cs.bits n m h

/-! ## Storage length and reachable states -/

theorem storageLength_eq : (NumCheckboxes + 63) / 64 = 15625 := by
  unfold NumCheckboxes; norm_num

theorem constructedLength_new : ConstructedLength NewCheckboxSet := by
  unfold ConstructedLength NewCheckboxSet
  exact List.length_replicate _ _

theorem Toggle_length (cs : CheckboxSet) (index : Int) :
    (Toggle cs index).state.bits.length = cs.bits.length := by
  unfold Toggle
  dsimp only
  split_ifs <;> simp

theorem Toggle_constructedLength {cs : CheckboxSet} (h : ConstructedLength cs) (index : Int) :
    ConstructedLength (Toggle cs index).state := by
  unfold ConstructedLength at *
  rw [Toggle_length, h]

theorem Reachable.constructedLength {cs : CheckboxSet} (h : Reachable cs) :
    ConstructedLength cs := by
  induction h with
  | init => exact constructedLength_new
  | step cs i _ _ _ ih => exact Toggle_constructedLength ih i

theorem Toggle_wellTyped {cs : CheckboxSet} (h : WellTyped cs) (index : Int) :
    WellTyped (Toggle cs index).state := by
  unfold Toggle
  dsimp only
  split_ifs
  · exact h
  · exact h
  · intro w hw
    rcases List.mem_or_eq_of_mem_set hw with hw | hw
    · exact h w hw
    · rw [hw]
      apply Nat.xor_lt_two_pow
      · rw [List.getD_eq_getElem?_getD]
        cases hg : cs.bits[(Int.tdiv index 64).toNat]? with
        | none => simp
        | some v => exact h v (List.getElem?_mem hg)
      · exact Nat.mod_lt _ (by norm_num)

theorem wellTyped_new : WellTyped NewCheckboxSet := by
  intro w hw
  rw [(List.mem_replicate.1 hw).2]
  norm_num

theorem Reachable.wellTyped {cs : CheckboxSet} (h : Reachable cs) : WellTyped cs := by
  induction h with
  | init => exact wellTyped_new
  | step cs i _ _ _ ih => exact Toggle_wellTyped ih i

/-- An index of the logical range is a natural number whose word lies inside a slice of
the constructed length. -/
theorem inRange_cases {cs : CheckboxSet} (h : ConstructedLength cs) {i : Int} (h0 : 0 ≤ i)
    (h1 : i < NumCheckboxes) :
    ∃ n : Nat, i = (n : Int) ∧ n < NumCheckboxes ∧ n / 64 < cs.bits.length := by
  obtain ⟨n, rfl⟩ := Int.eq_ofNat_of_zero_le h0
  refine ⟨n, rfl, by exact_mod_cast h1, ?_⟩
  unfold ConstructedLength at h
  rw [h, storageLength_eq]
  have : n < NumCheckboxes := by exact_mod_cast h1
  unfold NumCheckboxes at this
  omega

theorem toggleN_spec (n : Nat) (k : Nat) :
    ∀ cs : CheckboxSet, n / 64 < cs.bits.length →
      (toggleN (n : Int) k cs).result = .ok () ∧
      (toggleN (n : Int) k cs).state.bits.length = cs.bits.length ∧
      ∀ m : Nat, bitAt (toggleN (n : Int) k cs).state.bits m
        = (bitAt cs.bits m != (decide (m = n) && decide (k % 2 = 1))) := by
  induction k with
  | zero => intro cs _; simp [toggleN]
  | succ k ih =>
    intro cs h
    have hlen : n / 64 < (Toggle cs (n : Int)).state.bits.length := by
      rw [Toggle_length]; exact h
    obtain ⟨r1, r2, r3⟩ := ih (Toggle cs (n : Int)).state hlen
    have hstep : toggleN (n : Int) (k + 1) cs = toggleN (n : Int) k (Toggle cs (n : Int)).state := by
      rw [toggleN]
      simp [Toggle_ofNat cs n h]
    rw [hstep]
    refine ⟨r1, by rw [r2, Toggle_length], ?_⟩
    intro m
    rw [r3 m, bitAt_Toggle cs n m h]
    by_cases hm : m = n
    · rcases Nat.mod_two_eq_zero_or_one k with hk | hk
      · have : (k + 1) % 2 = 1 := by omega
        simp [hm, hk, this]
      · have : (k + 1) % 2 = 0 := by omega
        simp [hm, hk, this]
    · simp [hm]

theorem Outcome.eq_mk {α : Type} (o : Outcome α) {r : Except Panic α} {s : CheckboxSet}
    (h1 : o.result = r) (h2 : o.state = s) : o = ⟨r, s⟩ := by
  cases o
  simp only at h1 h2
  rw [h1, h2]

/-! ## Population count -/

theorem onesCount_eq_count (k : Nat) :
    ∀ w : Nat, ((List.range k).map w.testBit).count true = onesCount k w := by
  induction k with
  | zero => intro w; rfl
  | succ k ih =>
    intro w
    have hf : (w.testBit ∘ Nat.succ) = (w / 2).testBit := by
      funext j
      simp [Nat.testBit_succ]
    rw [List.range_succ_eq_map, List.map_cons, List.map_map, onesCount, hf, List.count_cons,
      ih (w / 2)]
    rcases Nat.mod_two_eq_zero_or_one w with h | h
    · simp [Nat.testBit_zero, h]
    · simp [Nat.testBit_zero, h]; omega

theorem onesCount_le (k : Nat) : ∀ w : Nat, onesCount k w ≤ k := by
  induction k with
  | zero => intro w; simp [onesCount]
  | succ k ih =>
    intro w
    have := ih (w / 2)
    have := Nat.mod_lt w (show 0 < 2 by norm_num)
    rw [onesCount]
    omega

theorem count_bits (ws : List Nat) :
    ((List.range (64 * ws.length)).map (bitAt ws)).count true
      = (ws.map (onesCount 64)).sum := by
  induction ws with
  | nil => simp
  | cons w ws ih =>
    have hl : 64 * (w :: ws).length = 64 + 64 * ws.length := by
      rw [List.length_cons]; omega
    rw [hl, List.range_add, List.map_append, List.count_append, List.map_map, List.map_cons,
      List.sum_cons, ← ih, ← onesCount_eq_count 64 w]
    have hlow : (List.range 64).map (bitAt (w :: ws)) = (List.range 64).map w.testBit := by
      apply List.map_congr_left
      intro i hi
      have hi := List.mem_range.1 hi
      have h1 : i / 64 = 0 := by omega
      have h2 : i % 64 = i := by omega
      simp [bitAt, h1, h2]
    have hhigh : (List.range (64 * ws.length)).map (bitAt (w :: ws) ∘ fun x => 64 + x)
        = (List.range (64 * ws.length)).map (bitAt ws) := by
      apply List.map_congr_left
      intro i _
      have h1 : (64 + i) / 64 = i / 64 + 1 := by omega
      have h2 : (64 + i) % 64 = i % 64 := by omega
      simp [bitAt, h1, h2]
    rw [hlow, hhigh]

theorem wrapInt_eq {x : Int} (h0 : -(2 ^ 63) ≤ x) (h1 : x < 2 ^ 63) : wrapInt x = x := by
  unfold wrapInt
  omega

theorem foldl_count (ws : List Nat) :
    ∀ a : Int, 0 ≤ a → a + 64 * (ws.length : Int) < 2 ^ 63 →
      ws.foldl (fun count word => wrapInt (count + OnesCount64 word)) a
        = a + (((ws.map (onesCount 64)).sum : Nat) : Int) := by
  induction ws with
  | nil => intro a _ _; simp
  | cons w ws ih =>
    intro a h0 h1
    have hw := onesCount_le 64 w
    rw [List.length_cons] at h1
    push_cast at h1
    have hwrap : wrapInt (a + OnesCount64 w) = a + (onesCount 64 w : Int) := by
      unfold OnesCount64
      apply wrapInt_eq <;> omega
    rw [List.foldl_cons, hwrap, ih _ (by omega) (by omega), List.map_cons, List.sum_cons]
    push_cast
    omega

theorem CountChecked_eq (cs : CheckboxSet) (h : 64 * (cs.bits.length : Int) < 2 ^ 63) :
    CountChecked cs = ⟨.ok (((cs.bits.map (onesCount 64)).sum : Nat) : Int), cs⟩ := by
  unfold CountChecked
  rw [foldl_count cs.bits 0 (le_refl 0) (by omega)]
  simp

/-! ## The snapshot loop -/

theorem stateLoop_spec (cs : CheckboxSet) (hlen : NumCheckboxes ≤ 64 * cs.bits.length) :
    ∀ (k i : Nat) (st : List Bool), k = NumCheckboxes - i → i ≤ NumCheckboxes →
      st.length = NumCheckboxes →
      (stateLoop cs i st).state = cs ∧
      ∃ out, (stateLoop cs i st).result = .ok out ∧ out.length = NumCheckboxes ∧
        ∀ j : Nat, j < NumCheckboxes →
          out[j]? = if j < i then st[j]? else some (bitAt cs.bits j) := by
  intro k
  induction k with
  | zero =>
    intro i st hk hi hst
    have hi2 : ¬ i < NumCheckboxes := by omega
    rw [stateLoop, if_neg hi2]
    refine ⟨rfl, st, rfl, hst, ?_⟩
    intro j hj
    rw [if_pos (by omega)]
  | succ k ih =>
    intro i st hk hi hst
    have hi2 : i < NumCheckboxes := by omega
    have hw : i / 64 < cs.bits.length := by omega
    rw [stateLoop, if_pos hi2]
    simp only [IsChecked_ofNat cs i hw]
    obtain ⟨r1, out, r2, r3, r4⟩ :=
      ih (i + 1) (st.set i (bitAt cs.bits i)) (by omega) (by omega) (by simp [hst])
    refine ⟨r1, out, r2, r3, ?_⟩
    intro j hj
    rw [r4 j hj]
    by_cases hji : j < i
    · rw [if_pos (by omega), if_pos hji, List.getElem?_set_ne (by omega)]
    · by_cases hje : j = i
      · subst hje
        rw [if_pos (by omega), if_neg hji, List.getElem?_set_self (by omega)]
      · rw [if_neg (by omega), if_neg hji]

theorem stateLoop_eq (cs : CheckboxSet) (hlen : NumCheckboxes ≤ 64 * cs.bits.length) :
    stateLoop cs 0 (List.replicate NumCheckboxes false)
      = ⟨.ok ((List.range NumCheckboxes).map (bitAt cs.bits)), cs⟩ := by
  obtain ⟨r1, out, r2, r3, r4⟩ :=
    stateLoop_spec cs hlen NumCheckboxes 0 (List.replicate NumCheckboxes false) rfl
      (Nat.zero_le _) (List.length_replicate _ _)
  have hout : out = (List.range NumCheckboxes).map (bitAt cs.bits) := by
    apply List.ext_getElem?
    intro j
    by_cases hj : j < NumCheckboxes
    · rw [r4 j hj, if_neg (Nat.not_lt_zero j)]
      simp [hj]
    · rw [List.getElem?_eq_none (by omega), List.getElem?_eq_none (by simp; omega)]
  exact Outcome.eq_mk _ (by rw [r2, hout]) r1

theorem stateHandler_eq (cs : CheckboxSet) (hlen : NumCheckboxes ≤ 64 * cs.bits.length) :
    stateHandler cs = ⟨.ok ⟨StatusOK, some "application/json",
      .json ((List.range NumCheckboxes).map (bitAt cs.bits))⟩, cs⟩ := by
  unfold stateHandler
  simp only [stateLoop_eq cs hlen]

theorem ConstructedLength.length_eq {cs : CheckboxSet} (h : ConstructedLength cs) :
    cs.bits.length = 15625 := by
  unfold ConstructedLength at h
  rw [h, storageLength_eq]

theorem ConstructedLength.numCheckboxes_eq {cs : CheckboxSet} (h : ConstructedLength cs) :
    64 * cs.bits.length = NumCheckboxes := by
  rw [h.length_eq]
  rfl

theorem count_true_map_range (f : Nat → Bool) (n : Nat) :
    ((List.range n).map f).count true = ((List.range n).filter f).length := by
  rw [List.count, List.countP_map, List.countP_eq_length_filter]
  congr 1
  apply List.filter_congr
  intro x _
  simp

theorem filter_length_congr (f g : Nat → Bool) (n : Nat) (h : ∀ i, i < n → f i = g i) :
    ((List.range n).filter f).length = ((List.range n).filter g).length := by
  rw [List.filter_congr (fun i hi => h i (List.mem_range.1 hi))]

/-! ## Out-of-range indices -/

theorem tdiv_neg_ofNat (m : Nat) : Int.tdiv (-(m : Int)) 64 = -((m / 64 : Nat) : Int) := by
  rw [Int.neg_tdiv, tdiv_ofNat]

theorem tmod_neg_ofNat (m : Nat) : Int.tmod (-(m : Int)) 64 = -((m % 64 : Nat) : Int) := by
  have h := Int.tmod_add_tdiv (-(m : Int)) 64
  rw [tdiv_neg_ofNat] at h
  omega

theorem Toggle_fails (cs : CheckboxSet) (index : Int)
    (h : Int.tdiv index 64 < 0 ∨ (cs.bits.length : Int) ≤ Int.tdiv index 64
      ∨ Int.tmod index 64 < 0) :
    (∃ p, (Toggle cs index).result = .error p) ∧ (Toggle cs index).state = cs := by
  unfold Toggle
  dsimp only
  split_ifs with h1 h2
  · exact ⟨⟨_, rfl⟩, rfl⟩
  · exact ⟨⟨_, rfl⟩, rfl⟩
  · omega

theorem IsChecked_fails (cs : CheckboxSet) (index : Int)
    (h : Int.tdiv index 64 < 0 ∨ (cs.bits.length : Int) ≤ Int.tdiv index 64
      ∨ Int.tmod index 64 < 0) :
    (∃ p, (IsChecked cs index).result = .error p) ∧ (IsChecked cs index).state = cs := by
  unfold IsChecked
  dsimp only
  split_ifs with h1 h2
  · exact ⟨⟨_, rfl⟩, rfl⟩
  · exact ⟨⟨_, rfl⟩, rfl⟩
  · omega

theorem outOfRange_cases {cs : CheckboxSet} (hs : ConstructedLength cs) {index : Int}
    (h : index < 0 ∨ index ≥ NumCheckboxes) :
    Int.tdiv index 64 < 0 ∨ (cs.bits.length : Int) ≤ Int.tdiv index 64
      ∨ Int.tmod index 64 < 0 := by
  have hl := hs.length_eq
  rcases h with h | h
  · obtain ⟨m, rfl⟩ := Int.exists_eq_neg_ofNat (le_of_lt h)
    rw [tdiv_neg_ofNat, tmod_neg_ofNat]
    omega
  · have h0 : 0 ≤ index := le_trans (Int.ofNat_nonneg _) h
    obtain ⟨n, rfl⟩ := Int.eq_ofNat_of_zero_le h0
    have hn : NumCheckboxes ≤ n := by exact_mod_cast h
    unfold NumCheckboxes at hn
    rw [tdiv_ofNat, hl]
    omega

theorem bitAt_replicate_zero (k n : Nat) : bitAt (List.replicate k 0) n = false := by
  unfold bitAt
  rw [List.getD_eq_getElem?_getD, List.getElem?_replicate]
  split_ifs <;> simp

/-! ## The toggle handler -/

theorem Atoi_empty : Atoi "" = none := by decide

theorem toggleHandler_bad (cs : CheckboxSet) (r : Request)
    (h : Atoi (r.queryGet "index") = none ∨
      ∃ k : Int, Atoi (r.queryGet "index") = some k ∧ (k < 0 ∨ k ≥ NumCheckboxes)) :
    toggleHandler cs r = ⟨.ok (httpError "Invalid index" StatusBadRequest), cs⟩ := by
  unfold toggleHandler
  rcases h with h | ⟨k, hk, hr⟩
  · simp only [h]
  · simp only [hk, if_pos hr]

theorem toggleHandler_good (cs : CheckboxSet) (hc : ConstructedLength cs) (r : Request)
    (k : Int) (hk : Atoi (r.queryGet "index") = some k) (h0 : 0 ≤ k)
    (h1 : k < NumCheckboxes) :
    toggleHandler cs r
        = ⟨.ok ⟨StatusOK, none, .text ("Toggled checkbox " ++ toString k)⟩,
            (Toggle cs k).state⟩ ∧
      (Toggle cs k).result = .ok () := by
  obtain ⟨n, rfl, _, hn⟩ := inRange_cases hc h0 h1
  have hr : ¬ ((n : Int) < 0 ∨ (n : Int) ≥ NumCheckboxes) := by omega
  have ht : (Toggle cs (n : Int)).result = .ok () := by rw [Toggle_ofNat cs n hn]
  refine ⟨?_, ht⟩
  unfold toggleHandler
  simp only [hk, if_neg hr, ht]

/-! ## Sequences of toggles -/

theorem toggleAll_spec (l : List Int) :
    ∀ cs : CheckboxSet, ConstructedLength cs → (∀ i ∈ l, 0 ≤ i ∧ i < NumCheckboxes) →
      (toggleAll l cs).result = .ok () ∧ ConstructedLength (toggleAll l cs).state ∧
      ∀ m : Nat, bitAt (toggleAll l cs).state.bits m
        = (bitAt cs.bits m != decide (l.count (m : Int) % 2 = 1)) := by
  induction l with
  | nil => intro cs hc _; simp [toggleAll, hc]
  | cons i rest ih =>
    intro cs hc hr
    obtain ⟨h0, h1⟩ := hr i (List.mem_cons_self _ _)
    obtain ⟨n, rfl, _, hn⟩ := inRange_cases hc h0 h1
    have hc2 : ConstructedLength (Toggle cs (n : Int)).state := Toggle_constructedLength hc _
    obtain ⟨r1, r2, r3⟩ := ih (Toggle cs (n : Int)).state hc2
      (fun j hj => hr j (List.mem_cons_of_mem _ hj))
    have hstep : toggleAll ((n : Int) :: rest) cs = toggleAll rest (Toggle cs (n : Int)).state := by
      rw [toggleAll]
      simp [Toggle_ofNat cs n hn]
    rw [hstep]
    refine ⟨r1, r2, ?_⟩
    intro m
    rw [r3 m, bitAt_Toggle cs n m hn, List.count_cons]
    by_cases hm : m = n
    · subst hm
      rcases Nat.mod_two_eq_zero_or_one (List.count (m : Int) rest) with hk | hk
      · have : (List.count (m : Int) rest + 1) % 2 = 1 := by omega
        simp [hk, this]
      · have : (List.count (m : Int) rest + 1) % 2 = 0 := by omega
        simp [hk, this]
    · have hne : ¬ ((n : Int) = (m : Int)) := by omega
      simp [hm, hne]

theorem filter_mem_length (l : List Int) (hnd : l.Nodup)
    (hr : ∀ i ∈ l, 0 ≤ i ∧ i < NumCheckboxes) :
    ((List.range NumCheckboxes).filter (fun m : Nat => decide ((m : Int) ∈ l))).length
      = l.length := by
  have hinj : Function.Injective (fun m : Nat => (m : Int)) := fun a b h => by
    simpa using h
  have hnd2 : (((List.range NumCheckboxes).filter
      (fun m : Nat => decide ((m : Int) ∈ l))).map (fun m : Nat => (m : Int))).Nodup :=
    ((List.nodup_range _).filter _).map hinj
  have hperm := (List.perm_ext_iff_of_nodup hnd2 hnd).2 (by
    intro a
    simp only [List.mem_map, List.mem_filter, List.mem_range, decide_eq_true_eq]
    constructor
    · rintro ⟨m, ⟨_, hm⟩, rfl⟩
      exact hm
    · intro ha
      obtain ⟨h0, h1⟩ := hr a ha
      obtain ⟨n, rfl⟩ := Int.eq_ofNat_of_zero_le h0
      exact ⟨n, ⟨by exact_mod_cast h1, ha⟩, rfl⟩)
  rw [← hperm.length_eq, List.length_map]

theorem IsChecked_state (cs : CheckboxSet) (index : Int) : (IsChecked cs index).state = cs := by
  unfold IsChecked
  dsimp only
  split_ifs <;> rfl

/-! ## The count after one toggle -/

theorem count_flip (f : Nat → Bool) (n : Nat) :
    ∀ N : Nat, n < N →
      ((List.range N).map (fun m => (f m != decide (m = n)))).count true
          + (if f n then 1 else 0)
        = ((List.range N).map f).count true + (if f n then 0 else 1) := by
  intro N
  induction N with
  | zero => intro h; omega
  | succ N ih =>
    intro h
    rw [List.range_succ, List.map_append, List.map_append, List.count_append,
      List.count_append]
    by_cases hn : n = N
    · subst hn
      have hsame : (List.range n).map (fun m => (f m != decide (m = n)))
          = (List.range n).map f := by
        apply List.map_congr_left
        intro m hm
        have hm := List.mem_range.1 hm
        have hne : m ≠ n := by omega
        simp [hne]
      rw [hsame]
      cases hf : f n <;> simp [hf]
    · have hlt : n < N := by omega
      have hne : N ≠ n := fun e => hn e.symm
      have := ih hlt
      have hlast : [N].map (fun m => (f m != decide (m = n))) = [N].map f := by
        simp [hne]
      rw [hlast]
      omega

theorem CountChecked_eq_count (cs : CheckboxSet) (hc : ConstructedLength cs) :
    CountChecked cs
      = ⟨.ok ((((List.range NumCheckboxes).map (bitAt cs.bits)).count true : Nat) : Int), cs⟩ := by
  have hl := hc.length_eq
  rw [CountChecked_eq cs (by omega), ← count_bits, hc.numCheckboxes_eq]

/-! ## Whole words: extensionality, involution, commutation -/

theorem wordBit_Toggle (cs : CheckboxSet) (n : Nat) (h : n / 64 < cs.bits.length) (k j : Nat) :
    ((Toggle cs (n : Int)).state.bits.getD k 0).testBit j
      = ((cs.bits.getD k 0).testBit j != decide (k = n / 64 ∧ j = n % 64)) := by
  rw [Toggle_ofNat cs n h]
  by_cases hk : k = n / 64
  · subst hk
    rw [List.getD_eq_getElem?_getD, List.getElem?_set_self h]
    simp only [Option.getD_some, Nat.testBit_xor, Nat.testBit_two_pow]
    by_cases hj : j = n % 64
    · simp [hj, List.getD_eq_getElem?_getD]
    · simp [hj, Ne.symm hj, List.getD_eq_getElem?_getD]
  · rw [List.getD_eq_getElem?_getD, List.getElem?_set_ne (Ne.symm hk)]
    simp [hk, List.getD_eq_getElem?_getD]

theorem bits_ext (ws1 ws2 : List Nat) (hl : ws1.length = ws2.length)
    (h : ∀ k : Nat, k < ws1.length → ∀ j : Nat,
      (ws1.getD k 0).testBit j = (ws2.getD k 0).testBit j) : ws1 = ws2 := by
  apply List.ext_getElem hl
  intro k h1 h2
  have hk := h k h1
  rw [List.getD_eq_getElem _ _ h1, List.getD_eq_getElem _ _ h2] at hk
  exact Nat.eq_of_testBit_eq hk

theorem CheckboxSet.eq_of_bits {a b : CheckboxSet} (h : a.bits = b.bits) : a = b := by
  cases a
  cases b
  simp only at h
  rw [h]

theorem Toggle_Toggle (cs : CheckboxSet) (n : Nat) (h : n / 64 < cs.bits.length) :
    (Toggle (Toggle cs (n : Int)).state (n : Int)).state = cs := by
  have h2 : n / 64 < (Toggle cs (n : Int)).state.bits.length := by
    rw [Toggle_length]; exact h
  apply CheckboxSet.eq_of_bits
  apply bits_ext _ _ (by rw [Toggle_length, Toggle_length])
  intro k _ j
  rw [wordBit_Toggle _ n h2, wordBit_Toggle cs n h]
  cases (cs.bits.getD k 0).testBit j <;> cases decide (k = n / 64 ∧ j = n % 64) <;> rfl

theorem Toggle_comm (cs : CheckboxSet) (n m : Nat) (hn : n / 64 < cs.bits.length)
    (hm : m / 64 < cs.bits.length) :
    (Toggle (Toggle cs (n : Int)).state (m : Int)).state
      = (Toggle (Toggle cs (m : Int)).state (n : Int)).state := by
  have hm2 : m / 64 < (Toggle cs (n : Int)).state.bits.length := by
    rw [Toggle_length]; exact hm
  have hn2 : n / 64 < (Toggle cs (m : Int)).state.bits.length := by
    rw [Toggle_length]; exact hn
  apply CheckboxSet.eq_of_bits
  apply bits_ext _ _ (by simp only [Toggle_length])
  intro k _ j
  rw [wordBit_Toggle _ m hm2, wordBit_Toggle cs n hn, wordBit_Toggle _ n hn2,
    wordBit_Toggle cs m hm]
  cases (cs.bits.getD k 0).testBit j <;> cases decide (k = n / 64 ∧ j = n % 64) <;>
    cases decide (k = m / 64 ∧ j = m % 64) <;> rfl

theorem parity_step (x : Bool) (c : Nat) :
    ((x != true) != decide (c % 2 = 1)) = (x != decide ((c + 1) % 2 = 1)) := by
  rcases Nat.mod_two_eq_zero_or_one c with h | h
  · have : (c + 1) % 2 = 1 := by omega
    simp [h, this]
  · have : (c + 1) % 2 = 0 := by omega
    simp [h, this]

theorem toggleAll_bits (l : List Int) :
    ∀ cs : CheckboxSet, ConstructedLength cs → (∀ i ∈ l, 0 ≤ i ∧ i < NumCheckboxes) →
      ∀ k j : Nat, ((toggleAll l cs).state.bits.getD k 0).testBit j
        = ((cs.bits.getD k 0).testBit j
            != (decide (j < 64) && decide (l.count ((64 * k + j : Nat) : Int) % 2 = 1))) := by
  induction l with
  | nil => intro cs _ _ k j; simp [toggleAll]
  | cons i rest ih =>
    intro cs hc hr k j
    obtain ⟨h0, h1⟩ := hr i (List.mem_cons_self _ _)
    obtain ⟨n, rfl, _, hn⟩ := inRange_cases hc h0 h1
    have hc2 : ConstructedLength (Toggle cs (n : Int)).state := Toggle_constructedLength hc _
    have hstep : toggleAll ((n : Int) :: rest) cs = toggleAll rest (Toggle cs (n : Int)).state := by
      rw [toggleAll]
      simp [Toggle_ofNat cs n hn]
    rw [hstep, ih _ hc2 (fun x hx => hr x (List.mem_cons_of_mem _ hx)) k j,
      wordBit_Toggle cs n hn, List.count_cons]
    by_cases hkj : k = n / 64 ∧ j = n % 64
    · have hj : j < 64 := by omega
      have he : ((n : Int) == ((64 * k + j : Nat) : Int)) = true := by
        rw [beq_iff_eq]; omega
      have d1 : decide (k = n / 64 ∧ j = n % 64) = true := decide_eq_true hkj
      have d2 : decide (j < 64) = true := decide_eq_true hj
      rw [he, d1, d2, if_pos rfl, Bool.true_and, Bool.true_and, parity_step]
    · have d1 : decide (k = n / 64 ∧ j = n % 64) = false := decide_eq_false hkj
      by_cases hj : j < 64
      · have he : ((n : Int) == ((64 * k + j : Nat) : Int)) = false := by
          rw [beq_eq_false_iff_ne]
          intro e
          apply hkj
          omega
        simp only [d1, he, Bool.bne_false, Bool.false_eq_true, if_false, Nat.add_zero]
      · have d2 : decide (j < 64) = false := decide_eq_false hj
        simp only [d1, d2, Bool.false_and, Bool.bne_false]

theorem WellTyped.getD_lt {cs : CheckboxSet} (h : WellTyped cs) (k : Nat) :
    cs.bits.getD k 0 < 2 ^ 64 := by
  rw [List.getD_eq_getElem?_getD]
  cases hg : cs.bits[k]? with
  | none => simp
  | some v => exact h v (List.getElem?_mem hg)

/-! ## Bounds on the count -/

theorem sum_onesCount_le (ws : List Nat) : (ws.map (onesCount 64)).sum ≤ 64 * ws.length := by
  induction ws with
  | nil => simp
  | cons w ws ih =>
    have := onesCount_le 64 w
    rw [List.map_cons, List.sum_cons, List.length_cons]
    omega

theorem foldl_plain (ws : List Nat) :
    ∀ a : Int, ws.foldl (fun count word => count + OnesCount64 word) a
      = a + (((ws.map (onesCount 64)).sum : Nat) : Int) := by
  induction ws with
  | nil => intro a; simp
  | cons w ws ih =>
    intro a
    rw [List.foldl_cons, ih, List.map_cons, List.sum_cons]
    unfold OnesCount64
    push_cast
    omega

/-! ## Properties of the checkbox set -/

/-- C1: in a state reachable from `NewCheckboxSet()` by in-range toggles, for an index `i`
with `0 ≤ i < NumCheckboxes`, `n` successive calls of `Toggle(i)` all succeed and leave
`IsChecked(i)` at its old value when `n` is even and at the negation of its old value when
`n` is odd; in particular one `Toggle(i)` flips `IsChecked(i)`. -/
theorem toggle_parity (s : CheckboxSet) (hs : Reachable s) (i : Int) (h0 : 0 ≤ i)
    (h1 : i < NumCheckboxes) (n : Nat) :
    ∃ b : Bool, (IsChecked s i).result = .ok b ∧
      (toggleN i n s).result = .ok () ∧
      (IsChecked (toggleN i n s).state i).result = .ok (if n % 2 = 0 then b else !b) ∧
      (Toggle s i).result = .ok () ∧
      (IsChecked (Toggle s i).state i).result = .ok (!b) := by
  obtain ⟨m, rfl, _, hm⟩ := inRange_cases hs.constructedLength h0 h1
  obtain ⟨r1, r2, r3⟩ := toggleN_spec m n s hm
  have hm1 : m / 64 < (toggleN (m : Int) n s).state.bits.length := by rw [r2]; exact hm
  have hm2 : m / 64 < (Toggle s (m : Int)).state.bits.length := by rw [Toggle_length]; exact hm
  refine ⟨bitAt s.bits m, by rw [IsChecked_ofNat s m hm], r1, ?_, ?_, ?_⟩
  · rw [IsChecked_ofNat _ m hm1, r3 m]
    rcases Nat.mod_two_eq_zero_or_one n with hn | hn <;> simp [hn]
  · rw [Toggle_ofNat s m hm]
  · rw [IsChecked_ofNat _ m hm2, bitAt_Toggle s m m hm]
    simp

/-- Witness of C1: three toggles of checkbox 70 in the state reached by one toggle of it. -/
theorem toggle_parity_witness :
    ∃ b : Bool, (IsChecked (Toggle NewCheckboxSet 70).state 70).result = .ok b ∧
      (toggleN 70 3 (Toggle NewCheckboxSet 70).state).result = .ok () ∧
      (IsChecked (toggleN 70 3 (Toggle NewCheckboxSet 70).state).state 70).result
        = .ok (if 3 % 2 = 0 then b else !b) ∧
      (Toggle (Toggle NewCheckboxSet 70).state 70).result = .ok () ∧
      (IsChecked (Toggle (Toggle NewCheckboxSet 70).state 70).state 70).result = .ok (!b) :=
  toggle_parity (Toggle NewCheckboxSet 70).state
    (Reachable.step NewCheckboxSet 70 Reachable.init (by decide) (by decide))
    70 (by decide) (by decide) 3

/-- C2: in a state with the constructed storage length, `Toggle(i)` for `0 ≤ i < NumCheckboxes`
succeeds and changes one bit only: `IsChecked(j)` is the same before and after for every
in-range `j ≠ i`, the slice keeps its length, every word other than word `i / 64` is
unchanged, and word `i / 64` differs from its old value in bit `i % 64` and in no other bit. -/
theorem toggle_frame (s : CheckboxSet) (hs : ConstructedLength s) (i : Int) (h0 : 0 ≤ i)
    (h1 : i < NumCheckboxes) :
    (Toggle s i).result = .ok () ∧
      (∀ j : Int, 0 ≤ j → j < NumCheckboxes → j ≠ i →
        (IsChecked (Toggle s i).state j).result = (IsChecked s j).result) ∧
      (Toggle s i).state.bits.length = s.bits.length ∧
      (∀ w : Nat, w ≠ (Int.tdiv i 64).toNat → (Toggle s i).state.bits[w]? = s.bits[w]?) ∧
      (∀ k : Nat, ((Toggle s i).state.bits.getD (Int.tdiv i 64).toNat 0).testBit k
        = ((s.bits.getD (Int.tdiv i 64).toNat 0).testBit k
            != decide (k = (Int.tmod i 64).toNat))) := by
  obtain ⟨n, rfl, _, hn⟩ := inRange_cases hs h0 h1
  refine ⟨by rw [Toggle_ofNat s n hn], ?_, Toggle_length s _, ?_, ?_⟩
  · intro j j0 j1 hj
    obtain ⟨m, rfl, _, hm⟩ := inRange_cases hs j0 j1
    have hm2 : m / 64 < (Toggle s (n : Int)).state.bits.length := by
      rw [Toggle_length]; exact hm
    have hne : m ≠ n := fun e => hj (by rw [e])
    rw [IsChecked_ofNat _ m hm2, IsChecked_ofNat s m hm, bitAt_Toggle s n m hn]
    simp [hne]
  · intro w hw
    rw [tdiv_ofNat, Int.toNat_ofNat] at hw
    rw [Toggle_ofNat s n hn]
    exact List.getElem?_set_ne (Ne.symm hw)
  · intro k
    rw [tdiv_ofNat, tmod_ofNat, Int.toNat_ofNat, Int.toNat_ofNat, Toggle_ofNat s n hn]
    rw [List.getD_eq_getElem?_getD, List.getElem?_set_self hn]
    simp only [Option.getD_some, Nat.testBit_xor, Nat.testBit_two_pow]
    by_cases hk : k = n % 64
    · simp [hk, List.getD_eq_getElem?_getD]
    · simp [hk, Ne.symm hk, List.getD_eq_getElem?_getD]

/-- Witness of C2: toggling checkbox 70 of the freshly constructed set. -/
theorem toggle_frame_witness :
    (Toggle NewCheckboxSet 70).result = .ok () ∧
      (∀ j : Int, 0 ≤ j → j < NumCheckboxes → j ≠ 70 →
        (IsChecked (Toggle NewCheckboxSet 70).state j).result
          = (IsChecked NewCheckboxSet j).result) ∧
      (Toggle NewCheckboxSet 70).state.bits.length = NewCheckboxSet.bits.length ∧
      (∀ w : Nat, w ≠ (Int.tdiv 70 64).toNat →
        (Toggle NewCheckboxSet 70).state.bits[w]? = NewCheckboxSet.bits[w]?) ∧
      (∀ k : Nat, ((Toggle NewCheckboxSet 70).state.bits.getD (Int.tdiv 70 64).toNat 0).testBit k
        = ((NewCheckboxSet.bits.getD (Int.tdiv 70 64).toNat 0).testBit k
            != decide (k = (Int.tmod 70 64).toNat))) :=
  toggle_frame NewCheckboxSet constructedLength_new 70 (by decide) (by decide)

/-- C3: in every state reachable from `NewCheckboxSet()` by in-range toggles, `stateHandler`
answers with a snapshot, and `CountChecked()` is the number of `true` entries of that
snapshot, which is the number of indices `i` of `[0, NumCheckboxes)` with `IsChecked(i)`
true; the words hold exactly `NumCheckboxes` bits, so no counted bit is outside the range. -/
theorem count_eq_snapshot (s : CheckboxSet) (hs : Reachable s) :
    ∃ snap : List Bool,
      (stateHandler s).result = .ok ⟨StatusOK, some "application/json", .json snap⟩ ∧
      (CountChecked s).result = .ok ((snap.count true : Nat) : Int) ∧
      snap.count true = ((List.range NumCheckboxes).filter
          (fun i : Nat => decide ((IsChecked s (i : Int)).result = .ok true))).length ∧
      64 * s.bits.length = NumCheckboxes := by
  have hc := hs.constructedLength
  have hN := hc.numCheckboxes_eq
  have hl := hc.length_eq
  refine ⟨(List.range NumCheckboxes).map (bitAt s.bits), ?_, ?_, ?_, hN⟩
  · rw [stateHandler_eq s (le_of_eq hN.symm)]
  · rw [CountChecked_eq s (by omega), ← count_bits, hN]
  · rw [count_true_map_range]
    apply filter_length_congr
    intro i hi
    have hw : i / 64 < s.bits.length := by
      unfold NumCheckboxes at hi; omega
    rw [IsChecked_ofNat s i hw]
    cases bitAt s.bits i <;> simp

/-- Witness of C3: the state reached by toggling checkbox 70. -/
theorem count_eq_snapshot_witness :
    ∃ snap : List Bool,
      (stateHandler (Toggle NewCheckboxSet 70).state).result
        = .ok ⟨StatusOK, some "application/json", .json snap⟩ ∧
      (CountChecked (Toggle NewCheckboxSet 70).state).result
        = .ok ((snap.count true : Nat) : Int) ∧
      snap.count true = ((List.range NumCheckboxes).filter
          (fun i : Nat => decide
            ((IsChecked (Toggle NewCheckboxSet 70).state (i : Int)).result = .ok true))).length ∧
      64 * (Toggle NewCheckboxSet 70).state.bits.length = NumCheckboxes :=
  count_eq_snapshot (Toggle NewCheckboxSet 70).state
    (Reachable.step NewCheckboxSet 70 Reachable.init (by decide) (by decide))

/-- C4: in a state with the constructed storage length, for an index with `index < 0` or
`index ≥ NumCheckboxes` both `Toggle(index)` and `IsChecked(index)` panic and leave the
storage as it was.  For `-63 ≤ index ≤ -1` the word index `index / 64` is 0 and the panic
is the negative shift count; for `index ≥ NumCheckboxes` (so for `index = NumCheckboxes`)
the panic is the slice index out of range. -/
theorem out_of_range_rejected (s : CheckboxSet) (hs : ConstructedLength s) (index : Int)
    (h : index < 0 ∨ index ≥ NumCheckboxes) :
    (∃ p, (Toggle s index).result = .error p) ∧ (Toggle s index).state = s ∧
      (∃ p, (IsChecked s index).result = .error p) ∧ (IsChecked s index).state = s ∧
      (-63 ≤ index → index ≤ -1 → Int.tdiv index 64 = 0 ∧
        (Toggle s index).result = .error .negativeShift ∧
        (IsChecked s index).result = .error .negativeShift) ∧
      (index ≥ NumCheckboxes →
        (Toggle s index).result = .error .indexOutOfRange ∧
        (IsChecked s index).result = .error .indexOutOfRange) := by
  have hcases := outOfRange_cases hs h
  have hl := hs.length_eq
  obtain ⟨t1, t2⟩ := Toggle_fails s index hcases
  obtain ⟨c1, c2⟩ := IsChecked_fails s index hcases
  refine ⟨t1, t2, c1, c2, ?_, ?_⟩
  · intro hlo hhi
    obtain ⟨m, rfl⟩ := Int.exists_eq_neg_ofNat (show index ≤ 0 by omega)
    have hd : Int.tdiv (-(m : Int)) 64 = 0 := by rw [tdiv_neg_ofNat]; omega
    have hm : Int.tmod (-(m : Int)) 64 < 0 := by rw [tmod_neg_ofNat]; omega
    have h1 : ¬ ((0 : Int) < 0 ∨ (s.bits.length : Int) ≤ 0) := by omega
    refine ⟨hd, ?_, ?_⟩
    · unfold Toggle
      simp only [hd, if_neg h1, if_pos hm]
    · unfold IsChecked
      simp only [hd, if_neg h1, if_pos hm]
  · intro hge
    have h0 : 0 ≤ index := le_trans (Int.ofNat_nonneg _) hge
    obtain ⟨n, rfl⟩ := Int.eq_ofNat_of_zero_le h0
    have hn : NumCheckboxes ≤ n := by exact_mod_cast hge
    unfold NumCheckboxes at hn
    have h1 : ((n / 64 : Nat) : Int) < 0 ∨ (s.bits.length : Int) ≤ ((n / 64 : Nat) : Int) := by
      omega
    constructor
    · unfold Toggle
      simp only [tdiv_ofNat, if_pos h1]
    · unfold IsChecked
      simp only [tdiv_ofNat, if_pos h1]

/-- Witness of C4: the indices -1 and 1000000 on the freshly constructed set. -/
theorem out_of_range_rejected_witness :
    (Int.tdiv (-1) 64 = 0 ∧
      (Toggle NewCheckboxSet (-1)).result = .error .negativeShift ∧
      (Toggle NewCheckboxSet (-1)).state = NewCheckboxSet ∧
      (IsChecked NewCheckboxSet (-1)).result = .error .negativeShift ∧
      (IsChecked NewCheckboxSet (-1)).state = NewCheckboxSet) ∧
    ((Toggle NewCheckboxSet 1000000).result = .error .indexOutOfRange ∧
      (Toggle NewCheckboxSet 1000000).state = NewCheckboxSet ∧
      (IsChecked NewCheckboxSet 1000000).result = .error .indexOutOfRange ∧
      (IsChecked NewCheckboxSet 1000000).state = NewCheckboxSet) :=
  have a := out_of_range_rejected NewCheckboxSet constructedLength_new (-1)
    (Or.inl (by decide))
  have b := out_of_range_rejected NewCheckboxSet constructedLength_new 1000000
    (Or.inr (by decide))
  have a5 := a.2.2.2.2.1 (by decide) (by decide)
  have b6 := b.2.2.2.2.2 (by decide)
  ⟨⟨a5.1, a5.2.1, a.2.1, a5.2.2, a.2.2.2.1⟩, ⟨b6.1, b.2.1, b6.2, b.2.2.2.1⟩⟩

/-- C5: on the set returned by `NewCheckboxSet()`, `IsChecked(i)` is false for every index
`i` with `0 ≤ i < NumCheckboxes`, and `CountChecked()` is 0. -/
theorem new_all_unchecked (i : Int) (h0 : 0 ≤ i) (h1 : i < NumCheckboxes) :
    (IsChecked NewCheckboxSet i).result = .ok false ∧
      (CountChecked NewCheckboxSet).result = .ok 0 := by
  obtain ⟨n, rfl, _, hn⟩ := inRange_cases constructedLength_new h0 h1
  have hl := constructedLength_new.length_eq
  constructor
  · rw [IsChecked_ofNat _ n hn]
    simp only [NewCheckboxSet, bitAt_replicate_zero]
  · rw [CountChecked_eq _ (by omega)]
    have hz : onesCount 64 0 = 0 := by decide
    have hsum : (NewCheckboxSet.bits.map (onesCount 64)).sum = 0 := by
      unfold NewCheckboxSet
      rw [List.map_replicate, hz, List.sum_replicate, smul_zero]
    rw [hsum]
    rfl

/-- Witness of C5: the last checkbox, index 999999. -/
theorem new_all_unchecked_witness :
    (IsChecked NewCheckboxSet 999999).result = .ok false ∧
      (CountChecked NewCheckboxSet).result = .ok 0 :=
  new_all_unchecked 999999 (by decide) (by decide)

/-- C6: in every reachable state `stateHandler` answers 200 with a snapshot of length
exactly `NumCheckboxes` whose entry at position `i` is `IsChecked(i)` for every `i` of
`[0, NumCheckboxes)`; no panic is raised and the state is unchanged. -/
theorem snapshot_spec (s : CheckboxSet) (hs : Reachable s) :
    ∃ snap : List Bool,
      (stateHandler s).result = .ok ⟨StatusOK, some "application/json", .json snap⟩ ∧
      (stateHandler s).state = s ∧
      snap.length = NumCheckboxes ∧
      ∀ i : Nat, i < NumCheckboxes →
        ∃ b : Bool, snap[i]? = some b ∧ (IsChecked s (i : Int)).result = .ok b := by
  have hc := hs.constructedLength
  have hN := hc.numCheckboxes_eq
  have hh := stateHandler_eq s (le_of_eq hN.symm)
  refine ⟨(List.range NumCheckboxes).map (bitAt s.bits), by rw [hh], by rw [hh], by simp, ?_⟩
  intro i hi
  have hw : i / 64 < s.bits.length := by omega
  refine ⟨bitAt s.bits i, ?_, by rw [IsChecked_ofNat s i hw]⟩
  simp [hi]

/-- Witness of C6: the state reached by toggling checkbox 70. -/
theorem snapshot_spec_witness :
    ∃ snap : List Bool,
      (stateHandler (Toggle NewCheckboxSet 70).state).result
        = .ok ⟨StatusOK, some "application/json", .json snap⟩ ∧
      (stateHandler (Toggle NewCheckboxSet 70).state).state = (Toggle NewCheckboxSet 70).state ∧
      snap.length = NumCheckboxes ∧
      ∀ i : Nat, i < NumCheckboxes →
        ∃ b : Bool, snap[i]? = some b ∧
          (IsChecked (Toggle NewCheckboxSet 70).state (i : Int)).result = .ok b :=
  snapshot_spec (Toggle NewCheckboxSet 70).state
    (Reachable.step NewCheckboxSet 70 Reachable.init (by decide) (by decide))

/-- C7: `toggleHandler` rejects exactly the bad inputs.  With `v` the value of the query
parameter `index` (the empty string when the parameter is missing), the handler answers 400
and leaves the checkbox set unchanged if and only if `v` is empty, `strconv.Atoi` fails on
`v`, or `v` parses to `k` with `k < 0` or `k ≥ NumCheckboxes`; otherwise `v` parses to an
in-range `k`, the handler answers 200, the resulting set is that of `Toggle(k)` on the
previous set, and that `Toggle` call does not panic. -/
theorem toggleHandler_spec (s : CheckboxSet) (hs : Reachable s) (r : Request) :
    (r.query.find? (fun kv => kv.1 == "index") = none → r.queryGet "index" = "") ∧
    (((∃ resp, (toggleHandler s r).result = .ok resp ∧ resp.status = StatusBadRequest) ∧
        (toggleHandler s r).state = s) ↔
      (r.queryGet "index" = "" ∨ Atoi (r.queryGet "index") = none ∨
        ∃ k : Int, Atoi (r.queryGet "index") = some k ∧ (k < 0 ∨ k ≥ NumCheckboxes))) ∧
    (¬ (r.queryGet "index" = "" ∨ Atoi (r.queryGet "index") = none ∨
        ∃ k : Int, Atoi (r.queryGet "index") = some k ∧ (k < 0 ∨ k ≥ NumCheckboxes)) →
      ∃ k : Int, Atoi (r.queryGet "index") = some k ∧ 0 ≤ k ∧ k < NumCheckboxes ∧
        (∃ resp, (toggleHandler s r).result = .ok resp ∧ resp.status = StatusOK) ∧
        (toggleHandler s r).state = (Toggle s k).state ∧
        (Toggle s k).result = .ok ()) := by
  have hc := hs.constructedLength
  have hgood : ¬ (r.queryGet "index" = "" ∨ Atoi (r.queryGet "index") = none ∨
        ∃ k : Int, Atoi (r.queryGet "index") = some k ∧ (k < 0 ∨ k ≥ NumCheckboxes)) →
      ∃ k : Int, Atoi (r.queryGet "index") = some k ∧ 0 ≤ k ∧ k < NumCheckboxes := by
    intro hn
    cases hA : Atoi (r.queryGet "index") with
    | none => exact absurd (Or.inr (Or.inl hA)) hn
    | some k =>
      refine ⟨k, rfl, ?_, ?_⟩
      · by_contra h0
        exact hn (Or.inr (Or.inr ⟨k, hA, Or.inl (by omega)⟩))
      · by_contra h1
        exact hn (Or.inr (Or.inr ⟨k, hA, Or.inr (by omega)⟩))
  refine ⟨?_, ⟨?_, ?_⟩, ?_⟩
  · intro h
    unfold Request.queryGet
    rw [h]
  · rintro ⟨⟨resp, hr, hst⟩, _⟩
    by_contra hn
    obtain ⟨k, hk, h0, h1⟩ := hgood hn
    have hg := (toggleHandler_good s hc r k hk h0 h1).1
    rw [hg] at hr
    have hresp := Except.ok.inj hr
    rw [← hresp] at hst
    have hne : StatusOK ≠ StatusBadRequest := by decide
    exact hne hst
  · intro hbad
    have hb : Atoi (r.queryGet "index") = none ∨
        ∃ k : Int, Atoi (r.queryGet "index") = some k ∧ (k < 0 ∨ k ≥ NumCheckboxes) := by
      rcases hbad with h | h | h
      · left; rw [h]; exact Atoi_empty
      · exact Or.inl h
      · exact Or.inr h
    rw [toggleHandler_bad s r hb]
    exact ⟨⟨_, rfl, rfl⟩, rfl⟩
  · intro hn
    obtain ⟨k, hk, h0, h1⟩ := hgood hn
    obtain ⟨hg, ht⟩ := toggleHandler_good s hc r k hk h0 h1
    refine ⟨k, hk, h0, h1, ?_, ?_, ht⟩
    · rw [hg]; exact ⟨_, rfl, rfl⟩
    · rw [hg]

/-- Witness of C7: the requests `/toggle?index=-1` and `/toggle?index=1000000` on the new
set are answered 400 and leave the set, hence `CountChecked()`, as it was. -/
theorem toggleHandler_spec_witness :
    ((∃ resp, (toggleHandler NewCheckboxSet ⟨[("index", "-1")]⟩).result = .ok resp ∧
        resp.status = StatusBadRequest) ∧
      (toggleHandler NewCheckboxSet ⟨[("index", "-1")]⟩).state = NewCheckboxSet) ∧
    ((∃ resp, (toggleHandler NewCheckboxSet ⟨[("index", "1000000")]⟩).result = .ok resp ∧
        resp.status = StatusBadRequest) ∧
      (toggleHandler NewCheckboxSet ⟨[("index", "1000000")]⟩).state = NewCheckboxSet) :=
  ⟨(toggleHandler_spec NewCheckboxSet Reachable.init ⟨[("index", "-1")]⟩).2.1.2
      (Or.inr (Or.inr ⟨-1, by decide, Or.inl (by decide)⟩)),
    (toggleHandler_spec NewCheckboxSet Reachable.init ⟨[("index", "1000000")]⟩).2.1.2
      (Or.inr (Or.inr ⟨1000000, by decide, Or.inr (by decide)⟩))⟩

/-- C8: starting from `NewCheckboxSet()`, toggling every index of a duplicate-free list of
indices of `[0, NumCheckboxes)` once, in the order of the list (any order), succeeds and
yields `CountChecked()` equal to the number of indices toggled, `IsChecked(i)` true exactly
for the toggled `i`, and a snapshot whose entry `i` tells whether `i` was toggled. -/
theorem toggle_distinct (l : List Int) (hnd : l.Nodup)
    (hr : ∀ i ∈ l, 0 ≤ i ∧ i < NumCheckboxes) :
    (toggleAll l NewCheckboxSet).result = .ok () ∧
      (CountChecked (toggleAll l NewCheckboxSet).state).result = .ok (l.length : Int) ∧
      (∀ i : Int, 0 ≤ i → i < NumCheckboxes →
        (IsChecked (toggleAll l NewCheckboxSet).state i).result = .ok (decide (i ∈ l))) ∧
      (stateHandler (toggleAll l NewCheckboxSet).state).result
        = .ok ⟨StatusOK, some "application/json",
            .json ((List.range NumCheckboxes).map (fun m : Nat => decide ((m : Int) ∈ l)))⟩ := by
  obtain ⟨r1, r2, r3⟩ := toggleAll_spec l NewCheckboxSet constructedLength_new hr
  have hN := r2.numCheckboxes_eq
  have hl := r2.length_eq
  have hbit : ∀ m : Nat, bitAt (toggleAll l NewCheckboxSet).state.bits m
      = decide ((m : Int) ∈ l) := by
    intro m
    rw [r3 m]
    have h0 : bitAt NewCheckboxSet.bits m = false := bitAt_replicate_zero _ m
    rw [h0, List.count_eq_of_nodup hnd]
    by_cases hm : (m : Int) ∈ l <;> simp [hm]
  have hmap : (List.range NumCheckboxes).map (bitAt (toggleAll l NewCheckboxSet).state.bits)
      = (List.range NumCheckboxes).map (fun m : Nat => decide ((m : Int) ∈ l)) :=
    List.map_congr_left (fun m _ => hbit m)
  refine ⟨r1, ?_, ?_, ?_⟩
  · rw [CountChecked_eq _ (by omega), ← count_bits, hN, hmap, count_true_map_range,
      filter_mem_length l hnd hr]
  · intro i h0 h1
    obtain ⟨n, rfl, _, hn⟩ := inRange_cases r2 h0 h1
    rw [IsChecked_ofNat _ n hn, hbit n]
  · rw [stateHandler_eq _ (le_of_eq hN.symm), hmap]

/-- Witness of C8: toggling 0, 2 and 5 once each on the new set gives `CountChecked() == 3`
and a snapshot that starts `[true, false, true, false, false, true, false, false]`. -/
theorem toggle_distinct_witness :
    (toggleAll [0, 2, 5] NewCheckboxSet).result = .ok () ∧
      (CountChecked (toggleAll [0, 2, 5] NewCheckboxSet).state).result = .ok 3 ∧
      ∃ snap : List Bool,
        (stateHandler (toggleAll [0, 2, 5] NewCheckboxSet).state).result
          = .ok ⟨StatusOK, some "application/json", .json snap⟩ ∧
        snap.take 8 = [true, false, true, false, false, true, false, false] :=
  have h := toggle_distinct [0, 2, 5] (by decide) (by decide)
  ⟨h.1, h.2.1, _, h.2.2.2, by
    rw [← List.map_take, List.take_range]
    decide⟩

/-- C9: the storage length is fixed at construction.  `NewCheckboxSet()` allocates
`(NumCheckboxes+63)/64 = 15625` words; every call of `Toggle`, `IsChecked` and
`CountChecked`, with any index and on any set, leaves the slice at the length it had; so a
reachable state has 15625 words, and for an index `i` with `0 ≤ i < NumCheckboxes` both
`Toggle(i)` and `IsChecked(i)` succeed there, with word index `i / 64` in `[0, 15625)` and
bit index `i % 64` in `[0, 64)`. -/
theorem storage_length_fixed (s : CheckboxSet) (hs : Reachable s) (i : Int) (h0 : 0 ≤ i)
    (h1 : i < NumCheckboxes) :
    NewCheckboxSet.bits.length = (NumCheckboxes + 63) / 64 ∧
      (NumCheckboxes + 63) / 64 = 15625 ∧
      (∀ (cs : CheckboxSet) (j : Int),
        (Toggle cs j).state.bits.length = cs.bits.length ∧
        (IsChecked cs j).state.bits.length = cs.bits.length ∧
        (CountChecked cs).state.bits.length = cs.bits.length) ∧
      s.bits.length = 15625 ∧
      (Toggle s i).result = .ok () ∧
      (∃ b : Bool, (IsChecked s i).result = .ok b) ∧
      0 ≤ Int.tdiv i 64 ∧ Int.tdiv i 64 < 15625 ∧
      0 ≤ Int.tmod i 64 ∧ Int.tmod i 64 < 64 := by
  have hc := hs.constructedLength
  have hl := hc.length_eq
  obtain ⟨n, rfl, _, hn⟩ := inRange_cases hc h0 h1
  refine ⟨constructedLength_new, storageLength_eq, ?_, hl, ?_, ?_, ?_⟩
  · intro cs j
    exact ⟨Toggle_length cs j, by rw [IsChecked_state], rfl⟩
  · rw [Toggle_ofNat s n hn]
  · exact ⟨bitAt s.bits n, by rw [IsChecked_ofNat s n hn]⟩
  · rw [tdiv_ofNat, tmod_ofNat]
    omega

/-- Witness of C9: the last checkbox, index 999999, in the state reached by toggling it. -/
theorem storage_length_fixed_witness :
    NewCheckboxSet.bits.length = (NumCheckboxes + 63) / 64 ∧
      (NumCheckboxes + 63) / 64 = 15625 ∧
      (∀ (cs : CheckboxSet) (j : Int),
        (Toggle cs j).state.bits.length = cs.bits.length ∧
        (IsChecked cs j).state.bits.length = cs.bits.length ∧
        (CountChecked cs).state.bits.length = cs.bits.length) ∧
      (Toggle NewCheckboxSet 999999).state.bits.length = 15625 ∧
      (Toggle (Toggle NewCheckboxSet 999999).state 999999).result = .ok () ∧
      (∃ b : Bool, (IsChecked (Toggle NewCheckboxSet 999999).state 999999).result = .ok b) ∧
      0 ≤ Int.tdiv 999999 64 ∧ Int.tdiv 999999 64 < 15625 ∧
      0 ≤ Int.tmod 999999 64 ∧ Int.tmod 999999 64 < 64 :=
  storage_length_fixed (Toggle NewCheckboxSet 999999).state
    (Reachable.step NewCheckboxSet 999999 Reachable.init (by decide) (by decide))
    999999 (by decide) (by decide)

/-- C11: in a state with the constructed storage length, for `0 ≤ i < NumCheckboxes`,
`CountChecked()` after `Toggle(i)` is `CountChecked()` before plus 1 when `IsChecked(i)`
was false before, and minus 1 when `IsChecked(i)` was true before. -/
theorem toggle_count (s : CheckboxSet) (hs : ConstructedLength s) (i : Int) (h0 : 0 ≤ i)
    (h1 : i < NumCheckboxes) :
    ∃ (c : Int) (b : Bool), (CountChecked s).result = .ok c ∧
      (IsChecked s i).result = .ok b ∧
      (Toggle s i).result = .ok () ∧
      (CountChecked (Toggle s i).state).result = .ok (if b then c - 1 else c + 1) := by
  obtain ⟨n, rfl, hnN, hn⟩ := inRange_cases hs h0 h1
  have hs2 : ConstructedLength (Toggle s (n : Int)).state := Toggle_constructedLength hs _
  have hmap : (List.range NumCheckboxes).map (bitAt (Toggle s (n : Int)).state.bits)
      = (List.range NumCheckboxes).map (fun m => (bitAt s.bits m != decide (m = n))) :=
    List.map_congr_left (fun m _ => bitAt_Toggle s n m hn)
  have hflip := count_flip (bitAt s.bits) n NumCheckboxes hnN
  refine ⟨_, bitAt s.bits n, by rw [CountChecked_eq_count s hs], by rw [IsChecked_ofNat s n hn],
    by rw [Toggle_ofNat s n hn], ?_⟩
  rw [CountChecked_eq_count _ hs2, hmap]
  cases hb : bitAt s.bits n
  · rw [hb] at hflip
    simp only [Bool.false_eq_true, if_false] at hflip ⊢
    apply congrArg Except.ok
    omega
  · rw [hb] at hflip
    simp only [if_true] at hflip ⊢
    apply congrArg Except.ok
    omega

/-- Witness of C11: toggling checkbox 70 in the state reached by toggling it once. -/
theorem toggle_count_witness :
    ∃ (c : Int) (b : Bool), (CountChecked (Toggle NewCheckboxSet 70).state).result = .ok c ∧
      (IsChecked (Toggle NewCheckboxSet 70).state 70).result = .ok b ∧
      (Toggle (Toggle NewCheckboxSet 70).state 70).result = .ok () ∧
      (CountChecked (Toggle (Toggle NewCheckboxSet 70).state 70).state).result
        = .ok (if b then c - 1 else c + 1) :=
  toggle_count (Toggle NewCheckboxSet 70).state
    (Toggle_constructedLength constructedLength_new 70) 70 (by decide) (by decide)

/-- C12: in a state with the constructed storage length, for `0 ≤ i < NumCheckboxes`,
two calls of `Toggle(i)` in a row both succeed and leave a storage array identical, word
for word, to the original one. -/
theorem toggle_involution (s : CheckboxSet) (hs : ConstructedLength s) (i : Int) (h0 : 0 ≤ i)
    (h1 : i < NumCheckboxes) :
    (Toggle s i).result = .ok () ∧
      (Toggle (Toggle s i).state i).result = .ok () ∧
      (Toggle (Toggle s i).state i).state.bits = s.bits := by
  obtain ⟨n, rfl, _, hn⟩ := inRange_cases hs h0 h1
  have hn2 : n / 64 < (Toggle s (n : Int)).state.bits.length := by
    rw [Toggle_length]; exact hn
  refine ⟨by rw [Toggle_ofNat s n hn], by rw [Toggle_ofNat _ n hn2], ?_⟩
  rw [Toggle_Toggle s n hn]

/-- Witness of C12: toggling checkbox 70 twice in the state reached by toggling checkbox 3. -/
theorem toggle_involution_witness :
    (Toggle (Toggle NewCheckboxSet 3).state 70).result = .ok () ∧
      (Toggle (Toggle (Toggle NewCheckboxSet 3).state 70).state 70).result = .ok () ∧
      (Toggle (Toggle (Toggle NewCheckboxSet 3).state 70).state 70).state.bits
        = (Toggle NewCheckboxSet 3).state.bits :=
  toggle_involution (Toggle NewCheckboxSet 3).state
    (Toggle_constructedLength constructedLength_new 3) 70 (by decide) (by decide)

/-- C13: in a state with the constructed storage length, for indices `i` and `j` of
`[0, NumCheckboxes)` (equal or not, in the same word or not), `Toggle(i)` then `Toggle(j)`
yields the same storage array as `Toggle(j)` then `Toggle(i)`; and two sequences of
in-range toggles in which every index occurs with the same parity yield the same storage
array. -/
theorem toggles_commute (s : CheckboxSet) (hs : ConstructedLength s) (i j : Int)
    (hi0 : 0 ≤ i) (hi1 : i < NumCheckboxes) (hj0 : 0 ≤ j) (hj1 : j < NumCheckboxes) :
    (Toggle (Toggle s i).state j).result = .ok () ∧
      (Toggle (Toggle s j).state i).result = .ok () ∧
      (Toggle (Toggle s i).state j).state.bits = (Toggle (Toggle s j).state i).state.bits ∧
      ∀ l1 l2 : List Int, (∀ k ∈ l1, 0 ≤ k ∧ k < NumCheckboxes) →
        (∀ k ∈ l2, 0 ≤ k ∧ k < NumCheckboxes) →
        (∀ k : Int, l1.count k % 2 = l2.count k % 2) →
        (toggleAll l1 s).result = .ok () ∧ (toggleAll l2 s).result = .ok () ∧
          (toggleAll l1 s).state.bits = (toggleAll l2 s).state.bits := by
  obtain ⟨n, rfl, _, hn⟩ := inRange_cases hs hi0 hi1
  obtain ⟨m, rfl, _, hm⟩ := inRange_cases hs hj0 hj1
  have hm2 : m / 64 < (Toggle s (n : Int)).state.bits.length := by
    rw [Toggle_length]; exact hm
  have hn2 : n / 64 < (Toggle s (m : Int)).state.bits.length := by
    rw [Toggle_length]; exact hn
  refine ⟨by rw [Toggle_ofNat _ m hm2], by rw [Toggle_ofNat _ n hn2],
    by rw [Toggle_comm s n m hn hm], ?_⟩
  intro l1 l2 hr1 hr2 hpar
  obtain ⟨a1, a2, _⟩ := toggleAll_spec l1 s hs hr1
  obtain ⟨b1, b2, _⟩ := toggleAll_spec l2 s hs hr2
  refine ⟨a1, b1, ?_⟩
  apply bits_ext _ _ (by rw [a2.length_eq, b2.length_eq])
  intro k _ b
  rw [toggleAll_bits l1 s hs hr1, toggleAll_bits l2 s hs hr2, hpar]

/-- Witness of C13: checkboxes 3 and 5 share word 0 of the new set; and toggling 3, 5, 3
leaves the same storage as toggling 5. -/
theorem toggles_commute_witness :
    (Toggle (Toggle NewCheckboxSet 3).state 5).state.bits
        = (Toggle (Toggle NewCheckboxSet 5).state 3).state.bits ∧
      (toggleAll [3, 5, 3] NewCheckboxSet).state.bits
        = (toggleAll [5] NewCheckboxSet).state.bits :=
  have h := toggles_commute NewCheckboxSet constructedLength_new 3 5 (by decide) (by decide)
    (by decide) (by decide)
  ⟨h.2.2.1, (h.2.2.2 [3, 5, 3] [5] (by decide) (by decide) (by
    intro k
    simp only [List.count_cons, List.count_nil]
    by_cases h3 : (3 : Int) = k
    · subst h3; decide
    · have e3 : ((3 : Int) == k) = false := by rw [beq_eq_false_iff_ne]; exact h3
      rw [e3]
      simp)).2.2⟩

/-- C14: the packed storage has no bit outside the logical range,
`64 * ((NumCheckboxes+63)/64) = NumCheckboxes`, and two checkbox sets of the constructed
storage length (their words being `uint64` values) that agree on `IsChecked(i)` for every
`i` of `[0, NumCheckboxes)` have identical storage arrays. -/
theorem storage_determined (a b : CheckboxSet) (ha : ConstructedLength a)
    (hb : ConstructedLength b) (wa : WellTyped a) (wb : WellTyped b)
    (h : ∀ i : Int, 0 ≤ i → i < NumCheckboxes →
      (IsChecked a i).result = (IsChecked b i).result) :
    64 * ((NumCheckboxes + 63) / 64) = NumCheckboxes ∧ a.bits = b.bits := by
  have hla := ha.length_eq
  have hlb := hb.length_eq
  refine ⟨by rw [storageLength_eq]; rfl, ?_⟩
  apply bits_ext _ _ (by rw [hla, hlb])
  intro k hk j
  by_cases hj : j < 64
  · have hm : ((64 * k + j : Nat) : Int) < NumCheckboxes := by
      unfold NumCheckboxes; omega
    have hq : (64 * k + j) / 64 = k := by omega
    have hr : (64 * k + j) % 64 = j := by omega
    have hagree := h ((64 * k + j : Nat) : Int) (Int.ofNat_nonneg _) hm
    rw [IsChecked_ofNat a _ (by omega), IsChecked_ofNat b _ (by omega)] at hagree
    have hbit := Except.ok.inj hagree
    unfold bitAt at hbit
    rw [hq, hr] at hbit
    exact hbit
  · have hpow : (2 : Nat) ^ 64 ≤ 2 ^ j := Nat.pow_le_pow_right (by norm_num) (by omega)
    rw [Nat.testBit_lt_two_pow (lt_of_lt_of_le (wa.getD_lt k) hpow),
      Nat.testBit_lt_two_pow (lt_of_lt_of_le (wb.getD_lt k) hpow)]

/-- Witness of C14: the set reached by toggling checkbox 70 twice, and the new set. -/
theorem storage_determined_witness :
    64 * ((NumCheckboxes + 63) / 64) = NumCheckboxes ∧
      (Toggle (Toggle NewCheckboxSet 70).state 70).state.bits = NewCheckboxSet.bits :=
  have h70 : (70 : Nat) / 64 < NewCheckboxSet.bits.length := by
    rw [constructedLength_new.length_eq]; decide
  have e : (Toggle (Toggle NewCheckboxSet 70).state 70).state = NewCheckboxSet := by
    exact_mod_cast Toggle_Toggle NewCheckboxSet 70 h70
  storage_determined (Toggle (Toggle NewCheckboxSet 70).state 70).state NewCheckboxSet
    (Toggle_constructedLength (Toggle_constructedLength constructedLength_new 70) 70)
    constructedLength_new
    (Toggle_wellTyped (Toggle_wellTyped wellTyped_new 70) 70)
    wellTyped_new
    (fun i _ _ => by rw [e])

/-- C15: in every state reachable from `NewCheckboxSet()` by in-range toggles,
`0 ≤ CountChecked() ≤ NumCheckboxes`; the accumulator of the loop never overflows (after
each word the exact sum lies in `[0, NumCheckboxes]`, below `2 ^ 63`, and the value
returned is the exact sum), and `countHandler` serves that value. -/
theorem count_bounded (s : CheckboxSet) (hs : Reachable s) :
    ∃ c : Int, (CountChecked s).result = .ok c ∧ 0 ≤ c ∧ c ≤ NumCheckboxes ∧
      (NumCheckboxes : Int) < 2 ^ 63 ∧
      (∀ k : Nat,
        0 ≤ (s.bits.take k).foldl (fun count word => count + OnesCount64 word) (0 : Int) ∧
        (s.bits.take k).foldl (fun count word => count + OnesCount64 word) (0 : Int)
          ≤ NumCheckboxes) ∧
      s.bits.foldl (fun count word => count + OnesCount64 word) (0 : Int) = c ∧
      (countHandler s).result = .ok ⟨StatusOK, none, .text (toString c)⟩ := by
  have hc := hs.constructedLength
  have hl := hc.length_eq
  have hN : (NumCheckboxes : Int) = 1000000 := rfl
  have hsum := sum_onesCount_le s.bits
  have hcount := CountChecked_eq s (by omega)
  refine ⟨_, by rw [hcount], Int.ofNat_nonneg _, by omega, by omega, ?_, ?_, ?_⟩
  · intro k
    have hk := sum_onesCount_le (s.bits.take k)
    have hlen : (s.bits.take k).length ≤ s.bits.length := by
      rw [List.length_take]; omega
    rw [foldl_plain]
    omega
  · rw [foldl_plain]
    omega
  · unfold countHandler
    simp only [hcount]

/-- Witness of C15: the state reached by toggling checkbox 70. -/
theorem count_bounded_witness :
    ∃ c : Int, (CountChecked (Toggle NewCheckboxSet 70).state).result = .ok c ∧ 0 ≤ c ∧
      c ≤ NumCheckboxes ∧
      (NumCheckboxes : Int) < 2 ^ 63 ∧
      (∀ k : Nat,
        0 ≤ ((Toggle NewCheckboxSet 70).state.bits.take k).foldl
          (fun count word => count + OnesCount64 word) (0 : Int) ∧
        ((Toggle NewCheckboxSet 70).state.bits.take k).foldl
          (fun count word => count + OnesCount64 word) (0 : Int) ≤ NumCheckboxes) ∧
      (Toggle NewCheckboxSet 70).state.bits.foldl
        (fun count word => count + OnesCount64 word) (0 : Int) = c ∧
      (countHandler (Toggle NewCheckboxSet 70).state).result
        = .ok ⟨StatusOK, none, .text (toString c)⟩ :=
  count_bounded (Toggle NewCheckboxSet 70).state
    (Reachable.step NewCheckboxSet 70 Reachable.init (by decide) (by decide))

end OneMillionCheckboxes
